import Mathlib

set_option maxRecDepth 4000

/-!
Verification of the Wikipedia scraper extraction engine (`src/main.py`).

The HTML document is embedded as a tree of nodes (`Node`); the BeautifulSoup
queries used by the source (`find`, `find_all`, `get_text`, `decompose`,
attribute lookup) become pure functions over that tree.  The extraction
function `extract_wikipedia_content` is translated from `src/main.py`
line by line; the network fetch is outside the engine, so the parsed
document is an input.  Machine strings are Lean `String`s (lists of
characters), matching Python's code-point strings.
-/

/-! ## The document tree (BeautifulSoup model) -/

/-- A parsed HTML node: an element with a tag name, an attribute list and
children, or a text node. -/
inductive Node where
  | elem (tag : String) (attrs : List (String × String)) (children : List Node) : Node
  | text (s : String) : Node

mutual
/-- `get_text()`: concatenation of all text beneath a node, document order. -/
def getText : Node → String
  | .text s => s
  | .elem _ _ cs => getTextList cs

def getTextList : List Node → String
  | [] => ""
  | c :: cs => getText c ++ getTextList cs
end

mutual
/-- All descendants of a node in document (preorder) order; the node itself
is excluded, matching BeautifulSoup's `find` / `find_all`. -/
def descendants : Node → List Node
  | .text _ => []
  | .elem _ _ cs => descendantsList cs

def descendantsList : List Node → List Node
  | [] => []
  | c :: cs => c :: (descendants c ++ descendantsList cs)
end

/-- Does the node have the given element tag? -/
def tagIs (t : String) (n : Node) : Bool :=
  match n with
  | .elem tg _ _ => tg == t
  | .text _ => false

/-- Attribute lookup on an element (`tag.get(name)` / `tag['name']`). -/
def getAttr (n : Node) (a : String) : Option String :=
  match n with
  | .elem _ attrs _ => attrs.lookup a
  | .text _ => none

/-- `find_all(pred)`: all matching descendants in document order. -/
def findAll (p : Node → Bool) (n : Node) : List Node :=
  (descendants n).filter p

/-- `find(pred)`: the first matching descendant, if any. -/
def findNode (p : Node → Bool) (n : Node) : Option Node :=
  (descendants n).find? p

/-- `find_all(tag)`. -/
def findAllTag (t : String) (n : Node) : List Node :=
  findAll (tagIs t) n

/-- Is the node an element whose tag is in the list (BeautifulSoup
`find_all(['script', 'style', ...])` test)? -/
def tagInList (ts : List String) (n : Node) : Bool :=
  match n with
  | .elem tg _ _ => ts.contains tg
  | .text _ => false

mutual
/-- `for unwanted in region.find_all([...]): unwanted.decompose()` —
remove every element whose tag is in the list, at any depth. -/
def removeTags (ts : List String) : Node → Node
  | .text s => .text s
  | .elem tg a cs => .elem tg a (removeTagsList ts cs)

def removeTagsList (ts : List String) : List Node → List Node
  | [] => []
  | c :: cs =>
    if tagInList ts c then removeTagsList ts cs
    else removeTags ts c :: removeTagsList ts cs
end

/-! ## The text normalizer `clean_text` (src/main.py lines 46-57)

`clean_text` is
`re.sub(r'\[edit\]', '', re.sub(r'\[\d+\]', '', re.sub(r'\s+', ' ', text.strip())))`
with an early return of `""` for the empty string.  Each regex substitution
is embedded as a character-list scanner with the same leftmost,
non-overlapping match semantics. -/

/-- Python whitespace (`str.strip` / regex `\s` over `str`): ASCII
whitespace together with the Unicode space characters. -/
def isWs (c : Char) : Bool :=
  c = ' ' || c = '\t' || c = '\n' || c = '\r' || c = '\x0b' || c = '\x0c' ||
  c = '\x1c' || c = '\x1d' || c = '\x1e' || c = '\x1f' || c = '\x85' || c = '\xa0' ||
  c = '\u1680' || ('\u2000' ≤ c && c ≤ '\u200a') ||
  c = '\u2028' || c = '\u2029' || c = '\u202f' || c = '\u205f' || c = '\u3000'

/-- Drop trailing whitespace. -/
def dropTrailWs : List Char → List Char
  | [] => []
  | c :: cs =>
    let r := dropTrailWs cs
    if r.isEmpty && isWs c then [] else c :: r

/-- `str.strip()` on a character list: drop leading and trailing whitespace. -/
def stripL (l : List Char) : List Char :=
  dropTrailWs (l.dropWhile isWs)

/-- `re.sub(r'\s+', ' ', ·)`: replace every whitespace run by one space.
The flag records whether the previous character was whitespace. -/
def collapseWs : Bool → List Char → List Char
  | _, [] => []
  | prevWs, c :: cs =>
    if isWs c then
      if prevWs then collapseWs true cs
      else ' ' :: collapseWs true cs
    else c :: collapseWs false cs

/-- Whitespace normalization of `clean_text`: strip, then collapse runs. -/
def normWsL (l : List Char) : List Char :=
  collapseWs false (stripL l)

/-- Scanner state for `re.sub(r'\[\d+\]', '', ·)`: `none` when not inside a
candidate match, `some ds` when a `[` followed by the digits `ds`
(in reverse) has been read. -/
def citeAux : Option (List Char) → List Char → List Char
  | none, [] => []
  | some ds, [] => '[' :: ds.reverse
  | none, c :: rest =>
    if c = '[' then citeAux (some []) rest
    else c :: citeAux none rest
  | some ds, c :: rest =>
    if c.isDigit then citeAux (some (c :: ds)) rest
    else if c = ']' && !ds.isEmpty then citeAux none rest
    else '[' :: ds.reverse ++
      (if c = '[' then citeAux (some []) rest else c :: citeAux none rest)

/-- `re.sub(r'\[\d+\]', '', ·)`: delete bracketed numeric citation markers. -/
def removeCites (l : List Char) : List Char :=
  citeAux none l

/-- `re.sub(r'\[edit\]', '', ·)`: delete literal `[edit]` markers. -/
def removeEdit : List Char → List Char
  | [] => []
  | '[' :: 'e' :: 'd' :: 'i' :: 't' :: ']' :: r => removeEdit r
  | c :: rest => c :: removeEdit rest

/-- `clean_text` from src/main.py: whitespace normalization, then citation
marker removal, then edit marker removal (in that order). -/
def clean_text (s : String) : String :=
  if s = "" then ""
  else ⟨removeEdit (removeCites (normWsL s.data))⟩

example : clean_text "  a\n b [12] c [edit] " = "a b  c " := rfl
example : clean_text "a [1] b" = "a  b" := rfl
example : clean_text "[1[2]]" = "[1]" := rfl

/-! ## URL validation (src/main.py line 65)

`re.match(r'https?://[a-z]+\.wikipedia\.org/wiki/', url)`.  Since `[a-z]`
cannot match `.`, the greedy run is the only candidate and backtracking is
irrelevant, so the regex is embedded as: literal `http`, optional `s`,
literal `://`, a nonempty run of `a`-`z`, literal `.wikipedia.org/wiki/`. -/

/-- Does the character list start with the given literal? -/
def litStarts : List Char → List Char → Bool
  | _, [] => true
  | [], _ :: _ => false
  | c :: cs, d :: ds => c == d && litStarts cs ds

/-- `str.startswith(p)`. -/
def strStarts (s p : String) : Bool :=
  litStarts s.data p.data

/-- Drop a literal from the front of a character list, or fail. -/
def dropLit : List Char → List Char → Option (List Char)
  | [], l => some l
  | _ :: _, [] => none
  | d :: ds, c :: cs => if c == d then dropLit ds cs else none

def isLowerAlpha (c : Char) : Bool :=
  'a' ≤ c && c ≤ 'z'

/-- The Wikipedia-URL check of src/main.py line 65. -/
def isWikiUrl (url : String) : Bool :=
  match dropLit "http".data url.data with
  | none => false
  | some r0 =>
    let r1 := match r0 with
      | 's' :: t => t
      | _ => r0
    match dropLit "://".data r1 with
    | none => false
    | some r2 =>
      let sub := r2.takeWhile isLowerAlpha
      let rest := r2.dropWhile isLowerAlpha
      !sub.isEmpty && (dropLit ".wikipedia.org/wiki/".data rest).isSome

example : isWikiUrl "https://en.wikipedia.org/wiki/Nasi_goreng" = true := rfl
example : isWikiUrl "http://id.wikipedia.org/wiki/Apel" = true := rfl
example : isWikiUrl "https://EN.wikipedia.org/wiki/X" = false := rfl
example : isWikiUrl "https://example.com/wiki/X" = false := rfl

/-- The scheme-and-host part of a URL: everything before the first
occurrence of `/wiki/` (used only to state the spec's claim that links are
rewritten against the domain of the source URL). -/
def takeUntilWiki : List Char → List Char
  | [] => []
  | c :: cs =>
    if litStarts (c :: cs) "/wiki/".data then []
    else c :: takeUntilWiki cs

def urlOrigin (url : String) : String :=
  ⟨takeUntilWiki url.data⟩

example : urlOrigin "https://id.wikipedia.org/wiki/Apel" = "https://id.wikipedia.org" := rfl

/-! ## Data model (src/main.py lines 29-44) -/

/-- The metadata dict built at src/main.py lines 108-128. -/
structure Metadata where
  language : String
  last_modified : Option String
  page_id : Option String
  categories : List String
deriving DecidableEq, Repr

/-- `WikipediaResponse` (src/main.py lines 35-44). -/
structure WikipediaResponse where
  title : String
  content : String
  summary : String
  metadata : Option Metadata
  links : Option (List String)
  images : Option (List String)
  url : String
  success : Bool
  message : String
deriving DecidableEq, Repr

/-- `WikipediaRequest` (src/main.py lines 29-33) with its field defaults. -/
structure WikipediaRequest where
  url : String
  include_metadata : Bool := true
  include_links : Bool := false
  include_images : Bool := false

/-- The ways `extract_wikipedia_content` fails on a parsed document:
`ValueError("Invalid Wikipedia URL format")` (line 66),
`ValueError("Could not find content on the page")` (line 87), and the
`AttributeError` raised at line 109 when no `html` element exists and
metadata was requested. -/
inductive ExtractError where
  | urlFormatError
  | contentNotFoundError
  | missingHtmlElement
deriving DecidableEq, Repr

/-! ## The field extractors (src/main.py lines 80-153) -/

/-- `soup.find('h1', {'id': 'firstHeading'})` (line 81). -/
def findTitleElem (soup : Node) : Option Node :=
  findNode (fun n => tagIs "h1" n && (getAttr n "id" == some "firstHeading")) soup

/-- `soup.find('div', {'id': 'mw-content-text'})` (line 85). -/
def findContentDiv (soup : Node) : Option Node :=
  findNode (fun n => tagIs "div" n && (getAttr n "id" == some "mw-content-text")) soup

/-- `soup.find('html', {})` (line 109). -/
def findHtmlElem (soup : Node) : Option Node :=
  findNode (tagIs "html") soup

/-- The tags decomposed from the content region (line 90). -/
def noiseTags : List String :=
  ["script", "style", "sup", "nav", "table"]

def removeNoise (cd : Node) : Node :=
  removeTags noiseTags cd

def pyStripS (s : String) : String :=
  ⟨stripL s.data⟩

/-- Line 95: `[clean_text(p.get_text()) for p in paragraphs if p.get_text().strip()]`.
The filter tests the raw stripped text, not the normalized text. -/
def contentTexts (ps : List Node) : List String :=
  (ps.filter (fun p => pyStripS (getText p) != "")).map (fun p => clean_text (getText p))

/-- Lines 98-103: the first three paragraphs, normalized, kept when longer
than 50 characters. -/
def summaryTexts (ps : List Node) : List String :=
  ((ps.take 3).map (fun p => clean_text (getText p))).filter (fun t => decide (50 < t.length))

/-- Whitespace-split of a `class` attribute value (BeautifulSoup treats
`class` as multi-valued). -/
def splitClasses : List Char → List Char → List String
  | cur, [] => if cur.isEmpty then [] else [⟨cur.reverse⟩]
  | cur, c :: cs =>
    if isWs c then
      if cur.isEmpty then splitClasses [] cs
      else ⟨cur.reverse⟩ :: splitClasses [] cs
    else splitClasses (c :: cur) cs

def classHas (n : Node) (v : String) : Bool :=
  match getAttr n "class" with
  | some s => (splitClasses [] s.data).contains v
  | none => false

/-- The metadata dict (lines 108-128).  The source mutates the soup before
these lookups by decomposing noise inside the content region only; the
elements queried here (`html`, the footer div, `meta`, category links)
live outside that region, so the lookups run on the original tree. -/
def buildMetadata (soup : Node) : Metadata :=
  { language := match findHtmlElem soup with
      | some h => (getAttr h "lang").getD "unknown"
      | none => "unknown"
    last_modified := (findNode (fun n => tagIs "div" n && (getAttr n "id" == some "footer-info-lastmod")) soup).map
      (fun d => clean_text (getText d))
    page_id := (findNode (fun n => tagIs "meta" n && (getAttr n "name" == some "page_id")) soup).bind
      (fun m => getAttr m "content")
    categories := (findAll (fun n => tagIs "a" n && classHas n "mw-category-link") soup).map
      (fun a => clean_text (getText a)) }

/-- `content_div.find_all('a', href=True)` (line 133). -/
def anchorsWithHref (cd : Node) : List Node :=
  findAll (fun n => tagIs "a" n && (getAttr n "href").isSome) cd

/-- Lines 133-138: internal links, prefixed with the constant
`https://en.wikipedia.org`. -/
def extractLinks (cd : Node) : List String :=
  (anchorsWithHref cd).filterMap (fun a =>
    (getAttr a "href").bind (fun h =>
      if strStarts h "/wiki/" && !strStarts h "/wiki/Special:" then
        some ("https://en.wikipedia.org" ++ h)
      else none))

/-- Lines 143-153: image sources (`src and not src.startswith('data:')`:
an empty `src` is falsy and skipped). -/
def extractImages (cd : Node) : List String :=
  (findAllTag "img" cd).filterMap (fun img =>
    match getAttr img "src" with
    | none => none
    | some src =>
      if src == "" then none
      else if strStarts src "data:" then none
      else if strStarts src "//" then some ("https:" ++ src)
      else if strStarts src "/" then some ("https://en.wikipedia.org" ++ src)
      else some src)

/-- `extract_wikipedia_content` (src/main.py lines 59-165) on an already
parsed document.  The network fetch (lines 69-78) happens outside the
extraction logic and is not modelled: the parsed document is an input. -/
def extract_wikipedia_content (url : String) (soup : Node)
    (include_metadata include_links include_images : Bool) :
    Except ExtractError WikipediaResponse :=
  if isWikiUrl url then
    let title := match findTitleElem soup with
      | some t => clean_text (getText t)
      | none => "Unknown Title"
    match findContentDiv soup with
    | none => .error .contentNotFoundError
    | some cd0 =>
      let cd := removeNoise cd0
      let paragraphs := findAllTag "p" cd
      let content := String.intercalate "\n\n" (contentTexts paragraphs)
      let summary := String.intercalate "\n\n" (summaryTexts paragraphs)
      if include_metadata && (findHtmlElem soup).isNone then
        .error .missingHtmlElement
      else
        .ok { title := title, content := content, summary := summary,
              metadata := if include_metadata then some (buildMetadata soup) else none,
              links := if include_links then some (extractLinks cd) else none,
              images := if include_images then some (extractImages cd) else none,
              url := url, success := true,
              message := "Content extracted successfully" }
  else .error .urlFormatError

/-- The `/scrape` endpoint body (src/main.py lines 195-215): unpack the
request record into the extraction call. -/
def scrape_wikipedia (req : WikipediaRequest) (soup : Node) :
    Except ExtractError WikipediaResponse :=
  extract_wikipedia_content req.url soup
    req.include_metadata req.include_links req.include_images

/-! ## Result projections (used to state claims without binders) -/

def titleOf : Except ExtractError WikipediaResponse → Option String
  | .ok r => some r.title
  | .error _ => none

def contentOf : Except ExtractError WikipediaResponse → Option String
  | .ok r => some r.content
  | .error _ => none

def summaryOf : Except ExtractError WikipediaResponse → Option String
  | .ok r => some r.summary
  | .error _ => none

def linksOf : Except ExtractError WikipediaResponse → Option (Option (List String))
  | .ok r => some r.links
  | .error _ => none

def successOf : Except ExtractError WikipediaResponse → Option Bool
  | .ok r => some r.success
  | .error _ => none

/-! ## The table extractor

Modelled from the spec: `src/test_api.py` and `src/example_usage.py`
exercise an `include_tables` request flag and a `tables` response field
(caption, headers, rows) that `src/main.py` does not implement; the
repository code implementing them is not under `src/`.  The definitions
below follow spec section 4.5: caption = first caption element normalized;
the header row is the first row whose cells are all header-typed (`th`);
body rows are the remaining rows that are not all-header rows; a cell
spanning N columns contributes its text N times; a cell spanning N rows
carries its text down into the same columns of the following N-1 rows;
after span expansion every row is right-padded with empty strings or
truncated to exactly `headers.length` cells (spec sections 3, 4.5 step 4
and 8 state this as an unconditional invariant of every emitted table). -/

/-- Modelled from the spec: a `Table` record (spec section 3). -/
structure Table where
  caption : Option String
  headers : List String
  rows : List (List String)
deriving DecidableEq, Repr

/-- Modelled from the spec: one table cell with its spans. -/
structure TableCell where
  txt : String
  colspan : Nat
  rowspan : Nat
  isHeaderCell : Bool
deriving DecidableEq, Repr

/-- Decimal parse of a nonempty digit string. -/
def decToNat? (l : List Char) : Option Nat :=
  if !l.isEmpty && l.all Char.isDigit then
    some (l.foldl (fun a c => a * 10 + (c.toNat - 48)) 0)
  else none

/-- A span attribute: a decimal value, defaulting to 1. -/
def parseSpan (o : Option String) : Nat :=
  (o.bind (fun s => decToNat? s.data)).getD 1

/-- Modelled from the spec: the cells (`th`/`td`) of one table row. -/
def cellsOfTr (tr : Node) : List TableCell :=
  (findAll (fun n => tagIs "th" n || tagIs "td" n) tr).map (fun c =>
    { txt := clean_text (getText c)
      colspan := parseSpan (getAttr c "colspan")
      rowspan := parseSpan (getAttr c "rowspan")
      isHeaderCell := tagIs "th" c })

/-- Is the row a header row: nonempty and all header-typed cells? -/
def isHeaderTr (cs : List TableCell) : Bool :=
  !cs.isEmpty && cs.all (fun c => c.isHeaderCell)

/-- Column-span expansion: a cell spanning N columns contributes its text
N times, each expanded column remembering the cell's row-span. -/
def expandCols (cs : List TableCell) : List (String × Nat) :=
  cs.flatMap (fun c => List.replicate c.colspan (c.txt, c.rowspan))

/-- The headers: the first all-header row, column-expanded. -/
def tableHeaders (rows : List (List TableCell)) : List String :=
  match rows.find? isHeaderTr with
  | some r => (expandCols r).map (fun e => e.1)
  | none => []

/-- The body rows: every row not recognized as a header row. -/
def tableBodyRows (rows : List (List TableCell)) : List (List TableCell) :=
  rows.filter (fun r => !isHeaderTr r)

/-- The carry entry a cell leaves for the next row: its text for N-1 more
rows when it spans N rows. -/
def carryEntry (t : String) (n : Nat) : Option (String × Nat) :=
  if n ≤ 1 then none else some (t, n - 1)

/-- Fill one row from the carried-down cells and the row's own expanded
cells: a column occupied by a carried cell takes the carried text, other
columns consume the row's cells left to right; returns the filled row and
the carry for the next row. -/
def fillNoCarry : List (String × Nat) → List String × List (Option (String × Nat))
  | [] => ([], [])
  | (t, rs) :: cs =>
    let (r, c') := fillNoCarry cs
    (t :: r, carryEntry t rs :: c')

def fillRow : List (Option (String × Nat)) → List (String × Nat) →
    List String × List (Option (String × Nat))
  | [], cs => fillNoCarry cs
  | some (t, n) :: cl, cs =>
    let (r, c') := fillRow cl cs
    (t :: r, carryEntry t n :: c')
  | none :: cl, [] =>
    let (r, c') := fillRow cl []
    (r, none :: c')
  | none :: cl, (t, rs) :: cs =>
    let (r, c') := fillRow cl cs
    (t :: r, carryEntry t rs :: c')

/-- Row-span carry-down over the body rows, in document order. -/
def processRows : List (Option (String × Nat)) → List (List (String × Nat)) →
    List (List String)
  | _, [] => []
  | carry, r :: rs =>
    let (row, c') := fillRow carry r
    row :: processRows c' rs

/-- Spec section 4.5 step 4: right-pad a short row with empty strings,
truncate a long one, so the row has exactly `h` cells. -/
def reconcile (h : Nat) (row : List String) : List String :=
  row.take h ++ List.replicate (h - row.length) ""

/-- Modelled from the spec: extract one `table` element (spec section 4.5). -/
def extractTable (tn : Node) : Table :=
  let rowsC := (findAllTag "tr" tn).map cellsOfTr
  let hs := tableHeaders rowsC
  let raw := processRows (List.replicate hs.length none)
    ((tableBodyRows rowsC).map expandCols)
  { caption := (findNode (tagIs "caption") tn).map (fun c => clean_text (getText c))
    headers := hs
    rows := raw.map (fun r => reconcile hs.length r) }

/-- Modelled from the spec: all tables of the pre-noise-removal content
region, in document order (spec section 4.5, tables are captured before
the noise-removal pass decomposes them). -/
def extractTables (cd0 : Node) : List Table :=
  (findAllTag "table" cd0).map extractTable

/-- Modelled from the spec: the response record with the `tables` field
that `src/test_api.py` and `src/example_usage.py` consume. -/
structure FullResponse where
  title : String
  content : String
  summary : String
  metadata : Option Metadata
  links : Option (List String)
  images : Option (List String)
  tables : Option (List Table)
  url : String
  success : Bool
  message : String
deriving DecidableEq, Repr

/-- Modelled from the spec: the extraction with the `include_tables`
option.  All other fields are computed exactly as src/main.py does; the
`tables` field is present iff requested (spec section 3), computed from
the content region before noise removal (spec section 4.2). -/
def extractFull (url : String) (soup : Node)
    (include_metadata include_links include_images include_tables : Bool) :
    Except ExtractError FullResponse :=
  if isWikiUrl url then
    let title := match findTitleElem soup with
      | some t => clean_text (getText t)
      | none => "Unknown Title"
    match findContentDiv soup with
    | none => .error .contentNotFoundError
    | some cd0 =>
      let cd := removeNoise cd0
      let paragraphs := findAllTag "p" cd
      let content := String.intercalate "\n\n" (contentTexts paragraphs)
      let summary := String.intercalate "\n\n" (summaryTexts paragraphs)
      if include_metadata && (findHtmlElem soup).isNone then
        .error .missingHtmlElement
      else
        .ok { title := title, content := content, summary := summary,
              metadata := if include_metadata then some (buildMetadata soup) else none,
              links := if include_links then some (extractLinks cd) else none,
              images := if include_images then some (extractImages cd) else none,
              tables := if include_tables then some (extractTables cd0) else none,
              url := url, success := true,
              message := "Content extracted successfully" }
  else .error .urlFormatError

/-- Does a full response respect the null-iff-flag contract for its four
optional fields (errors vacuously do)? -/
def nullIffFlags (im il ii it : Bool) : Except ExtractError FullResponse → Bool
  | .error _ => true
  | .ok r =>
    (r.metadata.isNone == !im) && (r.links.isNone == !il) &&
    (r.images.isNone == !ii) && (r.tables.isNone == !it)

def contentOfF : Except ExtractError FullResponse → Option String
  | .ok r => some r.content
  | .error _ => none

def summaryOfF : Except ExtractError FullResponse → Option String
  | .ok r => some r.summary
  | .error _ => none

def metadataOfF : Except ExtractError FullResponse → Option (Option Metadata)
  | .ok r => some r.metadata
  | .error _ => none

def tablesOfF : Except ExtractError FullResponse → Option (Option (List Table))
  | .ok r => some r.tables
  | .error _ => none

/-! ## Properties of the whitespace normalizer -/

/-- No two adjacent whitespace characters. -/
def noTwoWs : List Char → Bool
  | [] => true
  | [_] => true
  | a :: b :: rest => !(isWs a && isWs b) && noTwoWs (b :: rest)

/-- The head, if any, is not whitespace. -/
def headNonWs : List Char → Bool
  | [] => true
  | c :: _ => !isWs c

theorem headNonWs_iff (l : List Char) :
    headNonWs l = true ↔ ∀ c, l.head? = some c → isWs c = false := by
  cases l <;> simp [headNonWs]

theorem noTwoWs_cons_of (a : Char) (m : List Char)
    (h1 : isWs a = false ∨ headNonWs m = true) (h2 : noTwoWs m = true) :
    noTwoWs (a :: m) = true := by
  cases m with
  | nil => rfl
  | cons b bs =>
    have hb : (!(isWs a && isWs b)) = true := by
      rcases h1 with h | h
      · simp [h]
      · simp [headNonWs] at h
        simp [h]
    simp only [noTwoWs]
    simp [hb, h2]

theorem noTwoWs_tail (a : Char) (m : List Char) (h : noTwoWs (a :: m) = true) :
    noTwoWs m = true := by
  cases m with
  | nil => rfl
  | cons b bs =>
    simp only [noTwoWs, Bool.and_eq_true] at h
    exact h.2

theorem collapseWs_ws_space :
    ∀ (l : List Char) (b : Bool) (c : Char), c ∈ collapseWs b l → isWs c = true → c = ' ' := by
  intro l
  induction l with
  | nil => intro b c h; simp [collapseWs] at h
  | cons d ds ih =>
    intro b c h hc
    by_cases hw : isWs d
    · cases b with
      | true =>
        simp only [collapseWs, if_pos hw, if_pos rfl] at h
        exact ih true c h hc
      | false =>
        simp only [collapseWs, if_pos hw] at h
        rcases List.mem_cons.mp h with h | h
        · exact h
        · exact ih true c h hc
    · simp only [collapseWs, if_neg hw] at h
      rcases List.mem_cons.mp h with h | h
      · subst h; exact absurd hc (by simpa using hw)
      · exact ih false c h hc

theorem collapseWs_true_headNonWs :
    ∀ (l : List Char), headNonWs (collapseWs true l) = true := by
  intro l
  induction l with
  | nil => rfl
  | cons d ds ih =>
    by_cases hw : isWs d
    · simpa [collapseWs, hw] using ih
    · simp [collapseWs, hw, headNonWs]

theorem collapseWs_noTwoWs :
    ∀ (l : List Char) (b : Bool), noTwoWs (collapseWs b l) = true := by
  intro l
  induction l with
  | nil => intro b; rfl
  | cons d ds ih =>
    intro b
    by_cases hw : isWs d
    · cases b with
      | true => simpa [collapseWs, hw] using ih true
      | false =>
        have h := noTwoWs_cons_of ' ' (collapseWs true ds)
          (Or.inr (collapseWs_true_headNonWs ds)) (ih true)
        simpa [collapseWs, hw] using h
    · have hwf : isWs d = false := by simpa using hw
      have h := noTwoWs_cons_of d (collapseWs false ds) (Or.inl hwf) (ih false)
      simpa [collapseWs, hw] using h

theorem collapseWs_fix :
    ∀ (l : List Char), (∀ c ∈ l, isWs c = true → c = ' ') → noTwoWs l = true →
    collapseWs false l = l ∧ (headNonWs l = true → collapseWs true l = l) := by
  intro l
  induction l with
  | nil => exact fun _ _ => ⟨rfl, fun _ => rfl⟩
  | cons d ds ih =>
    intro hall hchain
    obtain ⟨ih1, ih2⟩ := ih (fun c hc => hall c (List.mem_cons_of_mem _ hc))
      (noTwoWs_tail _ _ hchain)
    by_cases hw : isWs d
    · have hd : d = ' ' := hall d (List.mem_cons_self _ _) (by simpa using hw)
      have hhead : headNonWs ds = true := by
        cases ds with
        | nil => rfl
        | cons e es =>
          simp only [noTwoWs, Bool.and_eq_true] at hchain
          have := hchain.1
          have hwe : isWs e = false := by
            have hor : isWs d = false ∨ isWs e = false := by simpa using this
            rcases hor with h | h
            · exact absurd h (by simpa using hw)
            · exact h
          simp [headNonWs, hwe]
      constructor
      · simp only [collapseWs, if_pos hw, if_neg (by simp : ¬(false = true))]
        rw [ih2 hhead, hd]
      · intro hh
        simp [headNonWs, hw] at hh
    · constructor
      · simp only [collapseWs, if_neg hw]
        rw [ih1]
      · intro _
        simp only [collapseWs, if_neg hw]
        rw [ih1]

theorem collapseWs_cons_of_ws_true {c : Char} (cs : List Char) (h : isWs c = true) :
    collapseWs true (c :: cs) = collapseWs true cs := by
  simp [collapseWs, h]

theorem collapseWs_cons_of_ws_false {c : Char} (cs : List Char) (h : isWs c = true) :
    collapseWs false (c :: cs) = ' ' :: collapseWs true cs := by
  simp [collapseWs, h]

theorem collapseWs_cons_of_nonws {c : Char} (cs : List Char) (b : Bool) (h : isWs c = false) :
    collapseWs b (c :: cs) = c :: collapseWs false cs := by
  simp [collapseWs, h]

theorem dropTrailWs_cons (c : Char) (cs : List Char) :
    dropTrailWs (c :: cs) =
    if (dropTrailWs cs).isEmpty && isWs c then [] else c :: dropTrailWs cs := rfl

theorem getLast?_cons_of_ne_nil {α : Type} (a : α) {l : List α} (h : l ≠ []) :
    (a :: l).getLast? = l.getLast? := by
  cases l with
  | nil => exact absurd rfl h
  | cons b bs => rfl

theorem collapseWs_getLast :
    ∀ (l : List Char) (b : Bool) (c : Char), l.getLast? = some c → isWs c = false →
    (collapseWs b l).getLast? = some c := by
  intro l
  induction l with
  | nil => intro b c h _; simp at h
  | cons d ds ih =>
    intro b c h hc
    cases ds with
    | nil =>
      simp at h
      subst h
      simp [collapseWs, hc]
    | cons e es =>
      have h' : (e :: es).getLast? = some c := by
        rw [getLast?_cons_of_ne_nil d (by simp)] at h
        exact h
      have hne : ∀ b', collapseWs b' (e :: es) ≠ [] := by
        intro b' hcc
        have := ih b' c h' hc
        rw [hcc] at this
        simp at this
      by_cases hw : isWs d
      · cases b with
        | true =>
          rw [collapseWs_cons_of_ws_true _ hw]
          exact ih true c h' hc
        | false =>
          rw [collapseWs_cons_of_ws_false _ hw]
          rw [getLast?_cons_of_ne_nil _ (hne true)]
          exact ih true c h' hc
      · have hwf : isWs d = false := by simpa using hw
        rw [collapseWs_cons_of_nonws _ b hwf]
        rw [getLast?_cons_of_ne_nil _ (hne false)]
        exact ih false c h' hc

theorem dropWhileWs_headNonWs (l : List Char) :
    headNonWs (l.dropWhile isWs) = true := by
  induction l with
  | nil => rfl
  | cons c cs ih =>
    by_cases hw : isWs c
    · rw [List.dropWhile_cons_of_pos hw]
      exact ih
    · rw [List.dropWhile_cons_of_neg hw]
      simpa [headNonWs] using hw

theorem dropWhile_eq_self_of_headNonWs (l : List Char) (h : headNonWs l = true) :
    l.dropWhile isWs = l := by
  cases l with
  | nil => rfl
  | cons c cs =>
    simp only [headNonWs] at h
    exact List.dropWhile_cons_of_neg (by simpa using h)

theorem dropTrailWs_getLast :
    ∀ (l : List Char) (c : Char), (dropTrailWs l).getLast? = some c → isWs c = false := by
  intro l
  induction l with
  | nil => intro c h; simp [dropTrailWs] at h
  | cons d ds ih =>
    intro c h
    simp only [dropTrailWs] at h
    by_cases he : (dropTrailWs ds).isEmpty && isWs d
    · rw [if_pos he] at h
      simp at h
    · rw [if_neg he] at h
      cases hdd : dropTrailWs ds with
      | nil =>
        rw [hdd] at h he
        simp at h
        subst h
        simpa using he
      | cons x xs =>
        rw [hdd] at h
        rw [getLast?_cons_of_ne_nil _ (by simp)] at h
        exact ih c (hdd ▸ h)

theorem dropTrailWs_headNonWs (l : List Char) (h : headNonWs l = true) :
    headNonWs (dropTrailWs l) = true := by
  cases l with
  | nil => rfl
  | cons d ds =>
    simp only [dropTrailWs]
    by_cases he : (dropTrailWs ds).isEmpty && isWs d
    · rw [if_pos he]; rfl
    · rw [if_neg he]
      simpa [headNonWs] using h

theorem dropTrailWs_id :
    ∀ (l : List Char), (∀ c, l.getLast? = some c → isWs c = false) → dropTrailWs l = l := by
  intro l
  induction l with
  | nil => intro _; rfl
  | cons d ds ih =>
    intro h
    cases hds : ds with
    | nil =>
      subst hds
      have hd : isWs d = false := h d (by simp)
      simp [dropTrailWs, hd]
    | cons e es =>
      subst hds
      have hds' : dropTrailWs (e :: es) = e :: es := by
        apply ih
        intro c hc
        apply h
        rw [getLast?_cons_of_ne_nil d (by simp)]
        exact hc
      rw [dropTrailWs_cons, hds']
      simp

theorem stripL_headNonWs (l : List Char) : headNonWs (stripL l) = true :=
  dropTrailWs_headNonWs _ (dropWhileWs_headNonWs l)

theorem stripL_getLast (l : List Char) (c : Char) (h : (stripL l).getLast? = some c) :
    isWs c = false :=
  dropTrailWs_getLast _ c h

theorem collapseWs_false_headNonWs (l : List Char) (h : headNonWs l = true) :
    headNonWs (collapseWs false l) = true := by
  cases l with
  | nil => rfl
  | cons c cs =>
    simp only [headNonWs] at h
    have hwf : isWs c = false := by simpa using h
    rw [collapseWs_cons_of_nonws _ false hwf]
    simp [headNonWs, hwf]

theorem getLast?_cons_ne_none (a : Char) (l : List Char) :
    (a :: l).getLast? ≠ none := by
  induction l generalizing a with
  | nil => simp
  | cons b bs ih =>
    rw [getLast?_cons_of_ne_nil a (by simp)]
    exact ih b

theorem collapseWs_lastNonWs (l : List Char) (b : Bool)
    (h : ∀ c, l.getLast? = some c → isWs c = false) :
    ∀ c, (collapseWs b l).getLast? = some c → isWs c = false := by
  intro c hc
  cases l with
  | nil => simp [collapseWs] at hc
  | cons x xs =>
    cases hl : (x :: xs).getLast? with
    | none => exact absurd hl (getLast?_cons_ne_none x xs)
    | some c0 =>
      have hn : isWs c0 = false := h c0 hl
      have := collapseWs_getLast (x :: xs) b c0 hl hn
      rw [this] at hc
      injection hc with hcc
      rw [← hcc]
      exact hn

/-- Whitespace normalization is idempotent. -/
theorem normWsL_idem (l : List Char) : normWsL (normWsL l) = normWsL l := by
  have hhead : headNonWs (normWsL l) = true :=
    collapseWs_false_headNonWs _ (stripL_headNonWs l)
  have hlast : ∀ c, (normWsL l).getLast? = some c → isWs c = false :=
    collapseWs_lastNonWs _ false (fun c hc => stripL_getLast l c hc)
  have hstrip : stripL (normWsL l) = normWsL l := by
    unfold stripL
    rw [dropWhile_eq_self_of_headNonWs _ hhead]
    exact dropTrailWs_id _ hlast
  have hfix := (collapseWs_fix (normWsL l)
    (fun c hc hw => collapseWs_ws_space (stripL l) false c hc hw)
    (collapseWs_noTwoWs (stripL l) false)).1
  show collapseWs false (stripL (normWsL l)) = normWsL l
  rw [hstrip]
  exact hfix

/-! ## Bracket-free strings and the marker removers -/

theorem mem_collapseWs :
    ∀ (l : List Char) (b : Bool) (c : Char), c ∈ collapseWs b l → c = ' ' ∨ c ∈ l := by
  intro l
  induction l with
  | nil => intro b c h; simp [collapseWs] at h
  | cons d ds ih =>
    intro b c h
    by_cases hw : isWs d
    · cases b with
      | true =>
        rw [collapseWs_cons_of_ws_true _ hw] at h
        rcases ih true c h with h | h
        · exact Or.inl h
        · exact Or.inr (List.mem_cons_of_mem _ h)
      | false =>
        rw [collapseWs_cons_of_ws_false _ hw] at h
        rcases List.mem_cons.mp h with h | h
        · exact Or.inl h
        · rcases ih true c h with h | h
          · exact Or.inl h
          · exact Or.inr (List.mem_cons_of_mem _ h)
    · rw [collapseWs_cons_of_nonws _ b (by simpa using hw)] at h
      rcases List.mem_cons.mp h with h | h
      · exact Or.inr (h ▸ List.mem_cons_self _ _)
      · rcases ih false c h with h | h
        · exact Or.inl h
        · exact Or.inr (List.mem_cons_of_mem _ h)

theorem mem_dropWhileWs (l : List Char) (c : Char) (h : c ∈ l.dropWhile isWs) : c ∈ l := by
  induction l with
  | nil => simp at h
  | cons d ds ih =>
    by_cases hw : isWs d
    · rw [List.dropWhile_cons_of_pos hw] at h
      exact List.mem_cons_of_mem _ (ih h)
    · rw [List.dropWhile_cons_of_neg hw] at h
      exact h

theorem mem_dropTrailWs : ∀ (l : List Char) (c : Char), c ∈ dropTrailWs l → c ∈ l := by
  intro l
  induction l with
  | nil => intro c h; simp [dropTrailWs] at h
  | cons d ds ih =>
    intro c h
    rw [dropTrailWs_cons] at h
    by_cases he : (dropTrailWs ds).isEmpty && isWs d
    · rw [if_pos he] at h; simp at h
    · rw [if_neg he] at h
      rcases List.mem_cons.mp h with h | h
      · exact h ▸ List.mem_cons_self _ _
      · exact List.mem_cons_of_mem _ (ih c h)

theorem normWsL_no_bracket (l : List Char) (h : '[' ∉ l) : '[' ∉ normWsL l := by
  intro hmem
  rcases mem_collapseWs _ false '[' hmem with hc | hc
  · exact absurd hc (by decide)
  · exact h (mem_dropWhileWs _ _ (mem_dropTrailWs _ _ hc))

theorem removeCites_id (l : List Char) (h : '[' ∉ l) : removeCites l = l := by
  unfold removeCites
  induction l with
  | nil => rfl
  | cons c cs ih =>
    have hc : ¬(c = '[') := fun e => h (e ▸ List.mem_cons_self _ _)
    simp only [citeAux, if_neg hc]
    rw [ih (fun hm => h (List.mem_cons_of_mem _ hm))]

theorem removeEdit_cons_ne (c : Char) (rest : List Char) (hc : c ≠ '[') :
    removeEdit (c :: rest) = c :: removeEdit rest := by
  rw [removeEdit.eq_def]
  split
  next heq => exact (List.cons_ne_nil _ _ heq).elim
  next r heq2 =>
    injection heq2 with h1 h2
    exact absurd h1 hc
  next c2 r2 hx heq =>
    injection heq with h1 h2
    subst h1
    subst h2
    rfl

theorem removeEdit_id (l : List Char) (h : '[' ∉ l) : removeEdit l = l := by
  induction l with
  | nil => rfl
  | cons c cs ih =>
    have hc : c ≠ '[' := fun e => h (e ▸ List.mem_cons_self _ _)
    rw [removeEdit_cons_ne c cs hc]
    rw [ih (fun hm => h (List.mem_cons_of_mem _ hm))]

/-- On bracket-free input, `clean_text` is exactly whitespace
normalization. -/
theorem clean_text_no_bracket (s : String) (h : '[' ∉ s.data) :
    clean_text s = ⟨normWsL s.data⟩ := by
  unfold clean_text
  by_cases he : s = ""
  · subst he
    rfl
  · rw [if_neg he]
    rw [removeCites_id _ (normWsL_no_bracket _ h), removeEdit_id _ (normWsL_no_bracket _ h)]

/-! ## Claim C2: idempotence of the normalizer -/

/-- Claim C2 is false as stated: removing the citation marker from
`"a [1] b"` leaves the two spaces around it adjacent, so a second
application of `clean_text` collapses them and changes the string. -/
theorem c2_normalize_not_idempotent :
    clean_text (clean_text "a [1] b") ≠ clean_text "a [1] b" := by decide

/-- Claim C2 (amended): `clean_text` is idempotent on every string that
contains no `[` character (on such strings the marker removers do
nothing, and whitespace normalization is idempotent). -/
theorem c2_normalize_idem_no_bracket (s : String) (h : '[' ∉ s.data) :
    clean_text (clean_text s) = clean_text s := by
  rw [clean_text_no_bracket s h]
  have hd : (String.mk (normWsL s.data)).data = normWsL s.data := rfl
  have h2 : '[' ∉ (String.mk (normWsL s.data)).data := by
    rw [hd]
    exact normWsL_no_bracket _ h
  rw [clean_text_no_bracket _ h2, hd, normWsL_idem]

/-- Witness for C2 (amended) at the concrete string `"a  b c"`. -/
theorem c2_normalize_idem_no_bracket_witness :
    '[' ∉ ("a  b c" : String).data ∧
    clean_text (clean_text "a  b c") = clean_text "a  b c" :=
  ⟨by decide, c2_normalize_idem_no_bracket "a  b c" (by decide)⟩

/-! ## Claim C3: fatal content loss, non-fatal title loss -/

/-- Claim C3: with a well-formed source URL, a document with no content
region fails with `contentNotFoundError` whatever the option flags are,
while a document whose title node alone is missing (the content region
and the `html` element are present) still succeeds with the title
`"Unknown Title"`. -/
theorem c3_content_missing_fatal_title_missing_ok (url : String) (soup : Node)
    (im il ii : Bool) (hu : isWikiUrl url = true) :
    (findContentDiv soup = none →
      extract_wikipedia_content url soup im il ii = .error .contentNotFoundError) ∧
    (findContentDiv soup ≠ none → findTitleElem soup = none → findHtmlElem soup ≠ none →
      titleOf (extract_wikipedia_content url soup im il ii) = some "Unknown Title" ∧
      successOf (extract_wikipedia_content url soup im il ii) = some true) := by
  constructor
  · intro hc
    unfold extract_wikipedia_content
    rw [if_pos hu, hc]
  · intro hc ht hh
    have hhh : (findHtmlElem soup).isNone = false := by
      cases hfh : findHtmlElem soup with
      | none => exact absurd hfh hh
      | some h => rfl
    cases hcd : findContentDiv soup with
    | none => exact absurd hcd hc
    | some cd =>
      unfold extract_wikipedia_content
      rw [if_pos hu, hcd, ht, hhh]
      simp [titleOf, successOf]

/-- A well-formed document lacking only the content region. -/
def docNoContent : Node :=
  .elem "[document]" [] [
    .elem "html" [("lang", "en")] [
      .elem "h1" [("id", "firstHeading")] [.text "T"],
      .elem "div" [("id", "bodyContent")] [.elem "p" [] [.text "Hello."]]]]

/-- The content region of `docNoTitle`. -/
def cdNoTitle : Node :=
  .elem "div" [("id", "mw-content-text")] [.elem "p" [] [.text "Hello there."]]

/-- A well-formed document lacking only the title heading. -/
def docNoTitle : Node :=
  .elem "[document]" [] [
    .elem "html" [("lang", "en")] [cdNoTitle]]

/-- The html element of `docNoTitle`. -/
def htmlNoTitle : Node :=
  .elem "html" [("lang", "en")] [cdNoTitle]

/-- Witness for C3 at two concrete documents: one without a content
region, one whose only missing piece is the title heading. -/
theorem c3_content_missing_fatal_title_missing_ok_witness :
    isWikiUrl "https://en.wikipedia.org/wiki/Test" = true ∧
    findContentDiv docNoContent = none ∧
    extract_wikipedia_content "https://en.wikipedia.org/wiki/Test" docNoContent true false false
      = .error .contentNotFoundError ∧
    findTitleElem docNoTitle = none ∧
    titleOf (extract_wikipedia_content "https://en.wikipedia.org/wiki/Test" docNoTitle true true true)
      = some "Unknown Title" ∧
    successOf (extract_wikipedia_content "https://en.wikipedia.org/wiki/Test" docNoTitle true true true)
      = some true := by
  have h1 := (c3_content_missing_fatal_title_missing_ok
    "https://en.wikipedia.org/wiki/Test" docNoContent true false false rfl).1 rfl
  have h2 := (c3_content_missing_fatal_title_missing_ok
    "https://en.wikipedia.org/wiki/Test" docNoTitle true true true rfl).2
    (fun h => Option.noConfusion ((rfl : findContentDiv docNoTitle = some cdNoTitle) ▸ h))
    rfl
    (fun h => Option.noConfusion ((rfl : findHtmlElem docNoTitle = some htmlNoTitle) ▸ h))
  exact ⟨rfl, rfl, h1, rfl, h2.1, h2.2⟩

/-! ## Claim C4: option independence and null-iff-flag -/

/-- Claim C4: for a fixed document, turning `include_links` on or off
never changes the `content`, `summary`, `metadata` or `tables` fields
(down to identical failure behavior), and on every success each optional
field is `none` exactly when its flag was false. -/
theorem c4_option_independence (url : String) (soup : Node) (im il ii it : Bool) :
    (contentOfF (extractFull url soup im true ii it)
       = contentOfF (extractFull url soup im false ii it) ∧
     summaryOfF (extractFull url soup im true ii it)
       = summaryOfF (extractFull url soup im false ii it) ∧
     metadataOfF (extractFull url soup im true ii it)
       = metadataOfF (extractFull url soup im false ii it) ∧
     tablesOfF (extractFull url soup im true ii it)
       = tablesOfF (extractFull url soup im false ii it)) ∧
    nullIffFlags im il ii it (extractFull url soup im il ii it) = true := by
  unfold extractFull
  by_cases hu : isWikiUrl url = true
  · simp only [if_pos hu]
    cases hcd : findContentDiv soup with
    | none =>
      simp [contentOfF, summaryOfF, metadataOfF, tablesOfF, nullIffFlags]
    | some cd =>
      by_cases hg : (im && (findHtmlElem soup).isNone) = true
      · simp only [if_pos hg]
        simp [contentOfF, summaryOfF, metadataOfF, tablesOfF, nullIffFlags]
      · simp only [if_neg hg]
        refine ⟨⟨rfl, rfl, rfl, rfl⟩, ?_⟩
        cases im <;> cases il <;> cases ii <;> cases it <;>
          simp [nullIffFlags]
  · simp only [if_neg hu]
    simp [contentOfF, summaryOfF, metadataOfF, tablesOfF, nullIffFlags]

/-! ## Claim C1: table column-count invariant -/

theorem reconcile_length (h : Nat) (row : List String) : (reconcile h row).length = h := by
  unfold reconcile
  simp only [List.length_append, List.length_take, List.length_replicate]
  omega

theorem processRows_length :
    ∀ (rs : List (List (String × Nat))) (carry : List (Option (String × Nat))),
    (processRows carry rs).length = rs.length := by
  intro rs
  induction rs with
  | nil => intro carry; rfl
  | cons r rest ih =>
    intro carry
    rcases hfr : fillRow carry r with ⟨row, c'⟩
    unfold processRows
    rw [hfr]
    simp [ih]

theorem extractTable_headers (tn : Node) :
    (extractTable tn).headers = tableHeaders ((findAllTag "tr" tn).map cellsOfTr) := rfl

theorem extractTable_rows (tn : Node) :
    (extractTable tn).rows =
    (processRows (List.replicate (extractTable tn).headers.length none)
      ((tableBodyRows ((findAllTag "tr" tn).map cellsOfTr)).map expandCols)).map
      (reconcile (extractTable tn).headers.length) := rfl

/-- Does every row of the table have exactly `headers.length` cells? -/
def rowsMatchHeaders (t : Table) : Bool :=
  t.rows.all (fun row => row.length == t.headers.length)

/-- Claim C1: every table element of the content region is extracted into
a `Table` whose rows all have exactly `headers.length` cells after span
expansion (short rows are right-padded by `reconcile`, long rows
truncated), and no body row is dropped. -/
theorem c1_table_row_width (region tn : Node) (_ht : tn ∈ findAllTag "table" region) :
    rowsMatchHeaders (extractTable tn) = true ∧
    (extractTable tn).rows.length
      = (tableBodyRows ((findAllTag "tr" tn).map cellsOfTr)).length := by
  constructor
  · apply List.all_eq_true.mpr
    intro row hrow
    rw [extractTable_rows] at hrow
    rw [List.mem_map] at hrow
    obtain ⟨r, _, hre⟩ := hrow
    rw [← hre, reconcile_length]
    exact beq_self_eq_true _
  · rw [extractTable_rows, List.length_map, processRows_length, List.length_map]

/-- A concrete table: a header row with a column-span, a body row with a
row-span, and a short body row. -/
def tblW : Node :=
  .elem "table" [] [
    .elem "caption" [] [.text "Stats"],
    .elem "tr" [] [
      .elem "th" [] [.text "A"],
      .elem "th" [("colspan", "2")] [.text "B"]],
    .elem "tr" [] [
      .elem "td" [("rowspan", "2")] [.text "x"],
      .elem "td" [] [.text "y"],
      .elem "td" [] [.text "z"]],
    .elem "tr" [] [
      .elem "td" [] [.text "q"]]]

/-- A content region holding `tblW`. -/
def regW : Node :=
  .elem "div" [("id", "mw-content-text")] [tblW]

/-- Witness for C1 at the concrete table `tblW` inside `regW`: the table
expands to headers `["A", "B", "B"]` and rows `[[x, y, z], [x, q, ""]]`,
every row as wide as the headers and no row dropped. -/
theorem c1_table_row_width_witness :
    tblW ∈ findAllTag "table" regW ∧
    extractTable tblW =
      { caption := some "Stats", headers := ["A", "B", "B"],
        rows := [["x", "y", "z"], ["x", "q", ""]] } ∧
    rowsMatchHeaders (extractTable tblW) = true ∧
    (extractTable tblW).rows.length
      = (tableBodyRows ((findAllTag "tr" tblW).map cellsOfTr)).length := by
  have hm : tblW ∈ findAllTag "table" regW := by
    show tblW ∈ [tblW]
    exact List.mem_singleton.mpr rfl
  have h := c1_table_row_width regW tblW hm
  exact ⟨hm, by decide, h.1, h.2⟩

/-! ## A helper: the shape of every successful extraction -/

/-- When the URL is well-formed, the content region exists, and the
metadata guard cannot fire, `extract_wikipedia_content` returns exactly
this record. -/
theorem extract_ok_fields (url : String) (soup cd : Node) (im il ii : Bool)
    (hu : isWikiUrl url = true) (hcd : findContentDiv soup = some cd)
    (hm : im = false ∨ findHtmlElem soup ≠ none) :
    extract_wikipedia_content url soup im il ii = .ok {
      title := match findTitleElem soup with
        | some t => clean_text (getText t)
        | none => "Unknown Title",
      content := String.intercalate "\n\n" (contentTexts (findAllTag "p" (removeNoise cd))),
      summary := String.intercalate "\n\n" (summaryTexts (findAllTag "p" (removeNoise cd))),
      metadata := if im then some (buildMetadata soup) else none,
      links := if il then some (extractLinks (removeNoise cd)) else none,
      images := if ii then some (extractImages (removeNoise cd)) else none,
      url := url, success := true, message := "Content extracted successfully" } := by
  have hg : (im && (findHtmlElem soup).isNone) = false := by
    rcases hm with h | h
    · rw [h]
      rfl
    · have hh : (findHtmlElem soup).isNone = false := by
        cases hfh : findHtmlElem soup with
        | none => exact absurd hfh h
        | some x => rfl
      rw [hh, Bool.and_false]
  unfold extract_wikipedia_content
  rw [if_pos hu, hcd, hg]
  rfl

/-- A 73-character paragraph for the sample document. -/
def longPara : String :=
  "This paragraph is quite long, definitely over fifty characters in total."

/-- The content region of the sample document `docW`. -/
def cdW : Node :=
  .elem "div" [("id", "mw-content-text")] [
    .elem "p" [] [.text longPara],
    .elem "p" [] [.text "Short."],
    .elem "p" [] [.text "[1]"],
    .elem "a" [("href", "/wiki/Apel")] [.text "Apel"],
    .elem "a" [("href", "/wiki/Special:Random")] [.text "rnd"],
    .elem "a" [("href", "http://x.com")] [.text "x"]]

/-- The html element of the sample document. -/
def htmlW : Node :=
  .elem "html" [("lang", "en")] [
    .elem "h1" [("id", "firstHeading")] [.text "My Article"],
    cdW]

/-- A sample document with title, content region and three paragraphs. -/
def docW : Node :=
  .elem "[document]" [] [htmlW]

/-- The sample source URL. -/
def wUrl : String := "https://en.wikipedia.org/wiki/Test"

/-! ## Claim C5: the links extractor -/

/-- The links as claim C5 describes them: qualifying anchors rewritten
against the domain of the source URL. -/
def claimLinks (url : String) (cd : Node) : List String :=
  (anchorsWithHref cd).filterMap (fun a =>
    (getAttr a "href").bind (fun h =>
      if strStarts h "/wiki/" && !strStarts h "/wiki/Special:" then
        some (urlOrigin url ++ h)
      else none))

theorem litStarts_append (p rest : List Char) : litStarts (p ++ rest) p = true := by
  induction p with
  | nil => simp [litStarts]
  | cons c cs ih =>
    show litStarts (c :: (cs ++ rest)) (c :: cs) = true
    simp [litStarts, ih]

theorem strStarts_append (p h : String) : strStarts (p ++ h) p = true := by
  unfold strStarts
  rw [String.data_append]
  exact litStarts_append p.data h.data

/-- The content region and source URL of the C5 counterexample. -/
def cdC5 : Node :=
  .elem "div" [("id", "mw-content-text")] [.elem "a" [("href", "/wiki/Apel")] [.text "Apel"]]

def docC5 : Node :=
  .elem "[document]" [] [.elem "html" [("lang", "id")] [cdC5]]

def urlC5 : String := "https://id.wikipedia.org/wiki/Apel"

/-- Claim C5 is false as stated: for a source URL on `id.wikipedia.org`,
the code rewrites the anchor `/wiki/Apel` to the constant domain
`https://en.wikipedia.org`, not to the source domain as the claim says. -/
theorem c5_links_domain_counterexample :
    findContentDiv docC5 = some cdC5 ∧
    linksOf (extract_wikipedia_content urlC5 docC5 false true false)
      = some (some ["https://en.wikipedia.org/wiki/Apel"]) ∧
    claimLinks urlC5 (removeNoise cdC5) = ["https://id.wikipedia.org/wiki/Apel"] ∧
    ("https://en.wikipedia.org/wiki/Apel" : String) ≠ "https://id.wikipedia.org/wiki/Apel" :=
  ⟨rfl, rfl, rfl, by decide⟩

/-- Claim C5 (amended): when links are requested the result's links are
exactly `extractLinks` of the noise-stripped content region — the anchors
with an `href` starting with `/wiki/` but not `/wiki/Special:`, each
prefixed with the constant `https://en.wikipedia.org` (the domain of the
source URL is not consulted), and every produced link starts with that
constant domain. -/
theorem c5_links_amended (url : String) (soup cd : Node) (im ii : Bool)
    (hu : isWikiUrl url = true) (hcd : findContentDiv soup = some cd)
    (hm : im = false ∨ findHtmlElem soup ≠ none) :
    linksOf (extract_wikipedia_content url soup im true ii)
      = some (some (extractLinks (removeNoise cd))) ∧
    ∀ link ∈ extractLinks (removeNoise cd),
      strStarts link "https://en.wikipedia.org" = true := by
  constructor
  · rw [extract_ok_fields url soup cd im true ii hu hcd hm]
    rfl
  · intro link hlink
    unfold extractLinks at hlink
    rw [List.mem_filterMap] at hlink
    obtain ⟨a, _, hfa⟩ := hlink
    cases hattr : getAttr a "href" with
    | none =>
      rw [hattr] at hfa
      exact Option.noConfusion hfa
    | some h =>
      rw [hattr] at hfa
      have hfa' : (if strStarts h "/wiki/" && !strStarts h "/wiki/Special:" then
          some ("https://en.wikipedia.org" ++ h) else none) = some link := hfa
      by_cases hcond : (strStarts h "/wiki/" && !strStarts h "/wiki/Special:") = true
      · rw [if_pos hcond] at hfa'
        injection hfa' with hfa'
        rw [← hfa']
        exact strStarts_append "https://en.wikipedia.org" h
      · rw [if_neg hcond] at hfa'
        exact Option.noConfusion hfa'

/-- Witness for C5 (amended) at the sample document: the two qualifying
anchors of `cdW` produce exactly the hard-coded-domain links. -/
theorem c5_links_amended_witness :
    isWikiUrl wUrl = true ∧
    findContentDiv docW = some cdW ∧
    linksOf (extract_wikipedia_content wUrl docW false true false)
      = some (some (extractLinks (removeNoise cdW))) ∧
    extractLinks (removeNoise cdW) = ["https://en.wikipedia.org/wiki/Apel"] ∧
    strStarts "https://en.wikipedia.org/wiki/Apel" "https://en.wikipedia.org" = true := by
  have h := c5_links_amended wUrl docW cdW false false rfl rfl (Or.inl rfl)
  refine ⟨rfl, rfl, h.1, rfl, ?_⟩
  exact h.2 "https://en.wikipedia.org/wiki/Apel" (by decide)

/-! ## Claim C6: the content field -/

/-- The content as claim C6 describes it: normalize every paragraph,
discard those that normalize to the empty string, join the rest. -/
def claimContentC6 (cd : Node) : String :=
  String.intercalate "\n\n"
    (((findAllTag "p" (removeNoise cd)).map (fun p => clean_text (getText p))).filter
      (fun t => !(t == "")))

/-- The content region of the C6 counterexample: one real paragraph and
one whose text is a bare citation marker. -/
def cdC6 : Node :=
  .elem "div" [("id", "mw-content-text")] [
    .elem "p" [] [.text "Hello there"],
    .elem "p" [] [.text "[1]"]]

def docC6 : Node :=
  .elem "[document]" [] [.elem "html" [("lang", "en")] [cdC6]]

/-- Claim C6 is false as stated: the code's paragraph filter tests the
raw stripped text, not the normalized text, so the `"[1]"` paragraph
survives the filter, normalizes to the empty string, and leaves a
trailing `"\n\n"` in `content` — it is not discarded as the claim says. -/
theorem c6_content_counterexample :
    findContentDiv docC6 = some cdC6 ∧
    contentOf (extract_wikipedia_content wUrl docC6 false false false)
      = some "Hello there\n\n" ∧
    claimContentC6 cdC6 = "Hello there" ∧
    ("Hello there\n\n" : String) ≠ "Hello there" :=
  ⟨rfl, rfl, rfl, by decide⟩

/-- Claim C6 (amended): `content` joins with a double line break the
normalization of every paragraph whose raw text has a non-whitespace
character (the filter tests `p.get_text().strip()`, not the normalized
text, so a paragraph normalizing to empty still contributes an empty
segment); when no paragraph survives that filter, `content` is the empty
string rather than an error. -/
theorem c6_content_amended (url : String) (soup cd : Node) (im il ii : Bool)
    (hu : isWikiUrl url = true) (hcd : findContentDiv soup = some cd)
    (hm : im = false ∨ findHtmlElem soup ≠ none) :
    contentOf (extract_wikipedia_content url soup im il ii)
      = some (String.intercalate "\n\n" (contentTexts (findAllTag "p" (removeNoise cd)))) ∧
    (contentTexts (findAllTag "p" (removeNoise cd)) = [] →
      contentOf (extract_wikipedia_content url soup im il ii) = some "") := by
  have h1 : contentOf (extract_wikipedia_content url soup im il ii)
      = some (String.intercalate "\n\n" (contentTexts (findAllTag "p" (removeNoise cd)))) := by
    rw [extract_ok_fields url soup cd im il ii hu hcd hm]
    rfl
  refine ⟨h1, fun he => ?_⟩
  rw [h1, he]
  rfl

/-- Witness for C6 (amended) at `docC6`: the two paragraphs yield the
pieces `["Hello there", ""]` joined into `"Hello there\n\n"`. -/
theorem c6_content_amended_witness :
    isWikiUrl wUrl = true ∧
    findContentDiv docC6 = some cdC6 ∧
    contentTexts (findAllTag "p" (removeNoise cdC6)) = ["Hello there", ""] ∧
    contentOf (extract_wikipedia_content wUrl docC6 false false false)
      = some (String.intercalate "\n\n" (contentTexts (findAllTag "p" (removeNoise cdC6)))) :=
  ⟨rfl, rfl, rfl,
    (c6_content_amended wUrl docC6 cdC6 false false false rfl rfl (Or.inl rfl)).1⟩

/-! ## Claim C7: the summary field -/

/-- The summary as claim C7 describes it: at most the first three
paragraphs of the content region, excluding those whose normalized length
is at most 50 characters, joined with a double line break. -/
def specSummaryC7 (cd : Node) : String :=
  String.intercalate "\n\n"
    ((((findAllTag "p" (removeNoise cd)).take 3).map (fun p => clean_text (getText p))).filter
      (fun t => decide (50 < t.length)))

/-- Claim C7: every successful extraction's `summary` is built from at
most the first three paragraphs, keeping only those longer than 50
characters after normalization, joined with a double line break. -/
theorem c7_summary_rule (url : String) (soup cd : Node) (im il ii : Bool)
    (hu : isWikiUrl url = true) (hcd : findContentDiv soup = some cd)
    (hm : im = false ∨ findHtmlElem soup ≠ none) :
    summaryOf (extract_wikipedia_content url soup im il ii) = some (specSummaryC7 cd) := by
  rw [extract_ok_fields url soup cd im il ii hu hcd hm]
  rfl

/-- Witness for C7 at the sample document: of the three paragraphs only
the 73-character one survives the 50-character filter. -/
theorem c7_summary_rule_witness :
    isWikiUrl wUrl = true ∧
    findContentDiv docW = some cdW ∧
    summaryOf (extract_wikipedia_content wUrl docW true false false) = some (specSummaryC7 cdW) ∧
    specSummaryC7 cdW = longPara :=
  ⟨rfl, rfl,
    c7_summary_rule wUrl docW cdW true false false rfl rfl
      (Or.inr (fun h => Option.noConfusion
        ((rfl : findHtmlElem docW = some htmlW) ▸ h))),
    rfl⟩

/-! ## Claim C8: URL validation inside the engine -/

/-- Claim C8 is false as stated: the extraction function itself validates
the URL (src/main.py line 65) and fails with the URL-format error on a
non-matching URL even for a document on which extraction would succeed —
a failure caused by URL shape alone, which the claim says cannot happen. -/
theorem c8_url_validation_counterexample :
    isWikiUrl "https://example.com/wiki/X" = false ∧
    extract_wikipedia_content "https://example.com/wiki/X" docW true false false
      = .error .urlFormatError ∧
    successOf (extract_wikipedia_content wUrl docW true false false) = some true :=
  ⟨rfl, rfl, rfl⟩

/-- Claim C8 (amended): the engine does re-validate the URL: for every
URL that fails the `https?://[a-z]+.wikipedia.org/wiki/` pattern,
extraction fails with the URL-format error for every document and every
flag setting, before any HTML structure is examined. -/
theorem c8_url_validation_amended (url : String) (soup : Node) (im il ii : Bool)
    (h : isWikiUrl url = false) :
    extract_wikipedia_content url soup im il ii = .error .urlFormatError := by
  unfold extract_wikipedia_content
  rw [if_neg (by simp [h])]

/-- Witness for C8 (amended) at a non-Wikipedia URL. -/
theorem c8_url_validation_amended_witness :
    isWikiUrl "https://example.com/wiki/X" = false ∧
    extract_wikipedia_content "https://example.com/wiki/X" docNoContent true true true
      = .error .urlFormatError :=
  ⟨rfl, c8_url_validation_amended "https://example.com/wiki/X" docNoContent true true true rfl⟩

/-! ## Claim C9: request flag defaults -/

/-- Does the result respect "metadata present, links and images absent"
(vacuously on errors)? -/
def c9check : Except ExtractError WikipediaResponse → Bool
  | .error _ => true
  | .ok r => r.metadata.isSome && r.links.isNone && r.images.isNone

/-- Claim C9: a request built from a URL alone defaults to
`include_metadata = true`, `include_links = false`,
`include_images = false`, and scraping with it returns metadata but
neither links nor images whenever it succeeds. -/
theorem c9_default_flags (u : String) (soup : Node) :
    ({ url := u } : WikipediaRequest).include_metadata = true ∧
    ({ url := u } : WikipediaRequest).include_links = false ∧
    ({ url := u } : WikipediaRequest).include_images = false ∧
    c9check (scrape_wikipedia { url := u } soup) = true := by
  refine ⟨rfl, rfl, rfl, ?_⟩
  unfold scrape_wikipedia
  show c9check (extract_wikipedia_content u soup true false false) = true
  unfold extract_wikipedia_content
  by_cases hu : isWikiUrl u = true
  · rw [if_pos hu]
    cases hcd : findContentDiv soup with
    | none => rfl
    | some cd =>
      by_cases hg : (true && (findHtmlElem soup).isNone) = true
      · simp only [if_pos hg]
        rfl
      · simp only [if_neg hg]
        rfl
  · rw [if_neg hu]
    rfl

/-! ## Claim C10: the summary is contained in the content -/

/-- A whitespace-only string normalizes to the empty string. -/
theorem clean_text_of_strip_empty (s : String) (h : pyStripS s = "") :
    clean_text s = "" := by
  have hs : stripL s.data = [] := congrArg String.data h
  unfold clean_text
  by_cases he : s = ""
  · rw [if_pos he]
  · rw [if_neg he]
    show String.mk (removeEdit (removeCites (normWsL s.data))) = ""
    have hn : normWsL s.data = [] := by
      unfold normWsL
      rw [hs]
      rfl
    rw [hn]
    rfl

/-- Is every summary piece one of the content pieces? -/
def summaryContained (ps : List Node) : Bool :=
  (summaryTexts ps).all (fun t => (contentTexts ps).contains t)

/-- Every paragraph text that enters the summary also enters the content:
it comes from one of the first three paragraphs, and being longer than 50
characters it is nonempty, so its raw text is not whitespace-only and the
paragraph passes the content filter as well. -/
theorem summaryTexts_sub_contentTexts (ps : List Node) : summaryContained ps = true := by
  unfold summaryContained
  apply List.all_eq_true.mpr
  intro t ht
  unfold summaryTexts at ht
  rw [List.mem_filter] at ht
  obtain ⟨hmem, hlen⟩ := ht
  rw [List.mem_map] at hmem
  obtain ⟨p, hp, hfp⟩ := hmem
  have hp' : p ∈ ps := List.take_subset 3 ps hp
  have h50 : 50 < t.length := of_decide_eq_true hlen
  have hne : (pyStripS (getText p) != "") = true := by
    by_contra hc
    have hceq : pyStripS (getText p) = "" := by
      simpa using hc
    have : t = "" := by
      rw [← hfp]
      exact clean_text_of_strip_empty _ hceq
    rw [this] at h50
    simp at h50
  apply List.elem_iff.mpr
  unfold contentTexts
  rw [List.mem_map]
  exact ⟨p, List.mem_filter.mpr ⟨hp', hne⟩, hfp⟩

/-- Claim C10: for every successful extraction the summary pieces are a
subset of the content pieces, and the two fields are the double-line-break
joins of those piece lists. -/
theorem c10_summary_subset_content (url : String) (soup cd : Node) (im il ii : Bool)
    (hu : isWikiUrl url = true) (hcd : findContentDiv soup = some cd)
    (hm : im = false ∨ findHtmlElem soup ≠ none) :
    summaryOf (extract_wikipedia_content url soup im il ii)
      = some (String.intercalate "\n\n" (summaryTexts (findAllTag "p" (removeNoise cd)))) ∧
    contentOf (extract_wikipedia_content url soup im il ii)
      = some (String.intercalate "\n\n" (contentTexts (findAllTag "p" (removeNoise cd)))) ∧
    summaryContained (findAllTag "p" (removeNoise cd)) = true := by
  refine ⟨?_, ?_, summaryTexts_sub_contentTexts _⟩
  · rw [extract_ok_fields url soup cd im il ii hu hcd hm]
    rfl
  · rw [extract_ok_fields url soup cd im il ii hu hcd hm]
    rfl

/-- Witness for C10 at the sample document. -/
theorem c10_summary_subset_content_witness :
    isWikiUrl wUrl = true ∧
    findContentDiv docW = some cdW ∧
    summaryOf (extract_wikipedia_content wUrl docW false false false)
      = some (String.intercalate "\n\n" (summaryTexts (findAllTag "p" (removeNoise cdW)))) ∧
    contentOf (extract_wikipedia_content wUrl docW false false false)
      = some (String.intercalate "\n\n" (contentTexts (findAllTag "p" (removeNoise cdW)))) ∧
    summaryContained (findAllTag "p" (removeNoise cdW)) = true := by
  have h := c10_summary_subset_content wUrl docW cdW false false false rfl rfl (Or.inl rfl)
  exact ⟨rfl, rfl, h.1, h.2.1, h.2.2⟩
